import Mathlib

/-!
Verification of the agent orchestration core of the `chatbot-agent`
repository: a shallow embedding in Lean 4 of the circuit breaker
(`src/agent/resilience/circuit_breaker.py`), the retry policy
(`src/agent/resilience/retry.py`, which delegates to tenacity), the tool
registry and executor (`src/agent/tools/registry.py`,
`src/agent/tools/executor.py`), the conversation memory
(`src/agent/core/memory.py`) and the non-streaming ReAct control loop
(`src/agent/core/agent.py`), together with theorems settling the spec's
claims about them.

Wall-clock reads (`datetime.now()` / `time.time()`) are modelled as
explicit rational-number parameters; the outcome of invoking a tool's
callable (normal return, timeout, raised exception) is an explicit
parameter of the executor's `execute`, so that the embedding is a total
function while remaining faithful to every control path of the source.
-/

/-! ## Circuit breaker (`circuit_breaker.py`) -/

/-- `CircuitState` enum: CLOSED / OPEN / HALF_OPEN. -/
inductive CircuitState where
  | closed
  | open
  | halfOpen
deriving DecidableEq, Repr

/-- `CircuitBreaker`: configuration fields together with the mutable
state (`_state`, `_failure_count`, `_success_count`, `_last_failure`).
The `_last_failure` timestamp is a rational number of seconds. -/
structure CircuitBreaker where
  failure_threshold : ℕ := 5
  recovery_timeout : ℚ := 60
  success_threshold : ℕ := 2
  st : CircuitState := .closed
  failure_count : ℕ := 0
  success_count : ℕ := 0
  last_failure : Option ℚ := none
deriving DecidableEq, Repr

namespace CircuitBreaker

/-- `_should_attempt_reset`: true when a last failure exists and strictly
more than `recovery_timeout` seconds have elapsed since it. -/
def shouldAttemptReset (cb : CircuitBreaker) (now : ℚ) : Bool :=
  match cb.last_failure with
  | none => false
  | some t => decide (now - t > cb.recovery_timeout)

/-- The `state` property: reading the state lazily transitions
OPEN → HALF_OPEN (resetting the success counter) once the recovery
timeout has elapsed.  Returns the breaker after the read together with
the observed state. -/
def stateRead (cb : CircuitBreaker) (now : ℚ) : CircuitBreaker × CircuitState :=
  if cb.st = .open ∧ cb.shouldAttemptReset now then
    let cb' := { cb with st := .halfOpen, success_count := 0 }
    (cb', .halfOpen)
  else
    (cb, cb.st)

/-- `check`: reads the state and raises `CircuitBreakerOpen` when it is
OPEN.  The boolean is `true` exactly when the exception is raised. -/
def check (cb : CircuitBreaker) (now : ℚ) : CircuitBreaker × Bool :=
  let (cb', s) := cb.stateRead now
  (cb', decide (s = .open))

/-- `record_success`: in HALF_OPEN, bump the success counter and close
the breaker (clearing the failure counter) once `success_threshold` is
reached; in any other state, reset the failure counter. -/
def recordSuccess (cb : CircuitBreaker) : CircuitBreaker :=
  if cb.st = .halfOpen then
    let sc := cb.success_count + 1
    if cb.success_threshold ≤ sc then
      { cb with success_count := sc, st := .closed, failure_count := 0 }
    else
      { cb with success_count := sc }
  else
    { cb with failure_count := 0 }

/-- `record_failure`: bump the failure counter and stamp `now`; reopen
from HALF_OPEN on any failure, and open from CLOSED once the failure
counter reaches `failure_threshold`. -/
def recordFailure (cb : CircuitBreaker) (now : ℚ) : CircuitBreaker :=
  let cb' := { cb with failure_count := cb.failure_count + 1, last_failure := some now }
  if cb.st = .halfOpen then
    { cb' with st := .open }
  else if cb.failure_threshold ≤ cb'.failure_count then
    { cb' with st := .open }
  else
    cb'

end CircuitBreaker

/-! ## Retry policy (`retry.py`, via tenacity)

`with_retry` returns `tenacity.retry(stop=stop_after_attempt(max_attempts),
wait=wait_exponential(multiplier=1, min=min_wait, max=max_wait),
retry=retry_if_exception_type(retryable_exceptions), reraise=True)`.
The definitions below mirror tenacity's `wait_exponential.__call__` and
the attempt loop of `BaseRetrying.iter` (after a failed attempt: if the
retry predicate rejects the exception, re-raise it unchanged; else if the
stop condition `attempt_number >= max_attempts` holds, raise — the
original exception when `reraise=True`, a wrapping `RetryError`
otherwise; else wait and try again). -/

/-- tenacity `wait_exponential(multiplier, max, exp_base, min)` applied
after attempt number `attempt`:
`max(max(0, min), min(multiplier * exp_base^(attempt-1), max))`. -/
def waitExponential (multiplier mn mx expBase : ℚ) (attempt : ℕ) : ℚ :=
  let result := multiplier * expBase ^ (attempt - 1)
  max (max 0 mn) (min result mx)

/-- The wait produced by a `with_retry(max_attempts, min_wait, max_wait, ...)`
wrapper after attempt `attempt`: tenacity `wait_exponential` with
`multiplier=1, min=min_wait, max=max_wait` (and default `exp_base=2`). -/
def withRetryWait (min_wait max_wait : ℚ) (attempt : ℕ) : ℚ :=
  waitExponential 1 min_wait max_wait 2 attempt

/-- The wait formula as the spec words it: `min(max_wait,
min_wait * 2^(attempt-1))`, clamped to `[min_wait, max_wait]`.
(A refinement target, written from the spec, to compare against
`withRetryWait`, which is written from the code.) -/
def specClaimedWait (min_wait max_wait : ℚ) (attempt : ℕ) : ℚ :=
  max min_wait (min max_wait (min_wait * 2 ^ (attempt - 1)))

/-- Outcome of running a retry-wrapped operation: normal return, the
original exception re-raised, or a tenacity `RetryError` wrapping the
last exception. -/
inductive RetryOutcome (ε α : Type) where
  | ok (a : α)
  | raised (e : ε)
  | retryError (e : ε)
deriving DecidableEq, Repr

/-- One turn of tenacity's attempt loop, starting at attempt number
`attempt`; `f k` is the outcome of the wrapped callable on attempt `k`. -/
def retryGo (retryable : ε → Bool) (reraise : Bool) (f : ℕ → Except ε α)
    (maxAttempts attempt : ℕ) : RetryOutcome ε α :=
  match f attempt with
  | .ok a => .ok a
  | .error e =>
    if retryable e = false then .raised e
    else if maxAttempts ≤ attempt then
      if reraise then .raised e else .retryError e
    else retryGo retryable reraise f maxAttempts (attempt + 1)
termination_by maxAttempts - attempt
decreasing_by omega

/-- Running an operation wrapped by `with_retry(max_attempts, ...)`:
attempts are numbered from 1 and `reraise=True`. -/
def withRetryRun (retryable : ε → Bool) (f : ℕ → Except ε α)
    (maxAttempts : ℕ) : RetryOutcome ε α :=
  retryGo retryable true f maxAttempts 1

/-! ## Tool registry (`registry.py`) -/

/-- `RegisteredTool` metadata (the callable itself is not carried: the
outcome of invoking it is an explicit parameter of `execute`). -/
structure RegisteredTool where
  name : String
  description : String := ""
  is_async : Bool := false
  timeout : ℚ := 30
  tags : List String := []
  enabled : Bool := true
deriving DecidableEq, Repr

/-- `ToolRegistry`: the `_tools` dict, as an insertion-ordered
association list with unique keys. -/
structure ToolRegistry where
  tools : List (String × RegisteredTool) := []
deriving DecidableEq, Repr

namespace ToolRegistry

/-- `get(name)`: dict lookup. -/
def get (reg : ToolRegistry) (name : String) : Option RegisteredTool :=
  reg.tools.lookup name

/-- `list_tools()` without a tag filter: all enabled entries, in
registration order. -/
def listTools (reg : ToolRegistry) : List RegisteredTool :=
  (reg.tools.map Prod.snd).filter (·.enabled)

/-- `list_names()`: names of all enabled tools. -/
def listNames (reg : ToolRegistry) : List String :=
  reg.listTools.map (·.name)

end ToolRegistry

/-! ## Tool executor (`executor.py`) -/

/-- `ToolResult` dataclass. -/
structure ToolResult (α : Type) where
  tool_call_id : String
  tool_name : String
  success : Bool
  result : Option α := none
  error : Option String := none
  execution_time_ms : ℚ := 0
deriving DecidableEq, Repr

/-- `ToolResult.to_message_content`, with `strOf` standing for Python's
`str()` on the opaque output value. -/
def toMessageContent (strOf : α → String) (r : ToolResult α) : String :=
  if r.success then
    match r.result with
    | some v => strOf v
    | none => "Success (no output)"
  else
    "Error: " ++ r.error.getD ""

/-- Python's `", ".join(names)`. -/
def joinComma : List String → String
  | [] => ""
  | [x] => x
  | x :: xs => x ++ ", " ++ joinComma xs

/-- `sub` occurs contiguously inside `s`. -/
def containsStr (s sub : String) : Prop :=
  ∃ a b, s = a ++ sub ++ b

/-- Outcome of awaiting the tool's callable under `asyncio.wait_for`:
a returned value (possibly `None`), a timeout, or a raised exception
carrying its `str()` message. -/
inductive FuncOutcome (α : Type) where
  | ok (v : Option α)
  | timeout
  | exc (msg : String)
deriving DecidableEq, Repr

/-- The result triple of `ToolExecutor.execute` in the embedding: the
returned `ToolResult`, the `_circuit_breakers` map after the call, and
whether the tool's callable was invoked. -/
structure ExecOut (α : Type) where
  result : ToolResult α
  breakers : List (String × CircuitBreaker)
  invoked : Bool
deriving DecidableEq, Repr

/-- `ToolExecutor` construction state: the registry plus breaker
configuration (`default_timeout`, `circuit_breaker_threshold`,
`circuit_breaker_timeout`). -/
structure ToolExecutor where
  registry : ToolRegistry
  default_timeout : ℚ := 30
  cb_threshold : ℕ := 5
  cb_timeout : ℚ := 60
deriving DecidableEq, Repr

namespace ToolExecutor

/-- `_get_circuit_breaker`: fetch the breaker for `tool_name`, creating
and inserting a fresh one (CLOSED, thresholds from the executor,
`success_threshold` left at its default 2) when absent.  Returns the
possibly-extended map together with the breaker. -/
def getCircuitBreaker (ex : ToolExecutor) (brs : List (String × CircuitBreaker))
    (tool_name : String) : List (String × CircuitBreaker) × CircuitBreaker :=
  match brs.lookup tool_name with
  | some cb => (brs, cb)
  | none =>
    let cb : CircuitBreaker :=
      { failure_threshold := ex.cb_threshold, recovery_timeout := ex.cb_timeout }
    (brs ++ [(tool_name, cb)], cb)

/-- Replace the entry for `tool_name` in the breaker map (the Python
breaker is a shared mutable object stored in the dict). -/
def setBreaker (brs : List (String × CircuitBreaker)) (tool_name : String)
    (cb : CircuitBreaker) : List (String × CircuitBreaker) :=
  brs.map fun p => if p.1 = tool_name then (p.1, cb) else p

/-- `ToolExecutor.execute(tool_call_id, tool_name, arguments)`.

Clock reads are parameters: `now` is the wall time at the circuit
breaker's `check`, `tf` the `datetime.now()` recorded by
`record_failure`, and `dur` the measured `execution_time_ms`.
`outcome` is what awaiting the callable produced.  Every control path of
the source returns a `ToolResult`; raised `CircuitBreakerOpen`,
`asyncio.TimeoutError` and generic exceptions are all converted, so the
embedding is a total function. -/
def execute (ex : ToolExecutor) (brs : List (String × CircuitBreaker))
    (now tf dur : ℚ) (tool_call_id tool_name : String)
    (outcome : FuncOutcome α) : ExecOut α :=
  match ex.registry.get tool_name with
  | none =>
    let err := "Unknown tool: '" ++ tool_name ++ "'. Available tools: "
      ++ joinComma ex.registry.listNames
    let r : ToolResult α :=
      ⟨tool_call_id, tool_name, false, none, some err, 0⟩
    ⟨r, brs, false⟩
  | some tool =>
    if tool.enabled = false then
      let err := "Tool '" ++ tool_name ++ "' is currently disabled"
      let r : ToolResult α :=
        ⟨tool_call_id, tool_name, false, none, some err, 0⟩
      ⟨r, brs, false⟩
    else
      let (brs1, cb) := ex.getCircuitBreaker brs tool_name
      let (cb1, raised) := cb.check now
      if raised then
        let err := "Tool '" ++ tool_name ++ "' is temporarily unavailable "
          ++ "due to repeated failures. It will be retried automatically."
        let r : ToolResult α :=
          ⟨tool_call_id, tool_name, false, none, some err, 0⟩
        ⟨r, setBreaker brs1 tool_name cb1, false⟩
      else
        let timeout := if tool.timeout = 0 then ex.default_timeout else tool.timeout
        match outcome with
        | .ok v =>
          let r : ToolResult α :=
            ⟨tool_call_id, tool_name, true, v, none, dur⟩
          ⟨r, setBreaker brs1 tool_name cb1.recordSuccess, true⟩
        | .timeout =>
          let err := "Tool '" ++ tool_name ++ "' timed out after "
            ++ toString timeout ++ " seconds"
          let r : ToolResult α :=
            ⟨tool_call_id, tool_name, false, none, some err, dur⟩
          ⟨r, setBreaker brs1 tool_name (cb1.recordFailure tf), true⟩
        | .exc msg =>
          let err := "Tool execution error: " ++ msg
          let r : ToolResult α :=
            ⟨tool_call_id, tool_name, false, none, some err, dur⟩
          ⟨r, setBreaker brs1 tool_name (cb1.recordFailure tf), true⟩

end ToolExecutor

/-! ## Messages and conversation memory (`llm/base.py`, `core/memory.py`) -/

/-- A `ToolCall` from the LLM (`llm/base.py`): `{id, name, input}`; the
`input` mapping is an opaque payload of type `α`. -/
structure ToolCall (α : Type) where
  id : String
  name : String
  input : α
deriving DecidableEq, Repr

/-- The `{"id", "name", "input"}` dict stored by
`add_assistant_message` for each requested call. -/
structure ToolCallDict (α : Type) where
  id : String
  name : String
  input : α
deriving DecidableEq, Repr

/-- `ToolCall → dict` conversion done by `add_assistant_message`. -/
def ToolCall.toDict (tc : ToolCall α) : ToolCallDict α :=
  ⟨tc.id, tc.name, tc.input⟩

/-- `LLMMessage` dataclass. -/
structure LLMMessage (α : Type) where
  role : String
  content : String
  tool_call_id : Option String := none
  tool_calls : Option (List (ToolCallDict α)) := none
deriving DecidableEq, Repr

/-- The plain record produced by `LLMMessage.to_dict` (a dict with keys
`role`, `content`, `tool_call_id`, `tool_calls`). -/
structure MsgRecord (α : Type) where
  role : String
  content : String
  tool_call_id : Option String
  tool_calls : Option (List (ToolCallDict α))
deriving DecidableEq, Repr

/-- `LLMMessage.to_dict`. -/
def LLMMessage.to_dict (m : LLMMessage α) : MsgRecord α :=
  ⟨m.role, m.content, m.tool_call_id, m.tool_calls⟩

/-- `LLMMessage(**item)`: reconstruction from a record. -/
def LLMMessage.ofRecord (r : MsgRecord α) : LLMMessage α :=
  ⟨r.role, r.content, r.tool_call_id, r.tool_calls⟩

/-- `ConversationMemory` dataclass. -/
structure ConversationMemory (α : Type) where
  max_messages : ℕ := 100
  messages : List (LLMMessage α) := []
deriving DecidableEq, Repr

namespace ConversationMemory

/-- `_trim_if_needed`: when the count exceeds `max_messages`, drop the
oldest `count - max_messages` messages. -/
def trimIfNeeded (m : ConversationMemory α) : ConversationMemory α :=
  if m.max_messages < m.messages.length then
    { m with messages := m.messages.drop (m.messages.length - m.max_messages) }
  else
    m

/-- `add_user_message`. -/
def addUserMessage (m : ConversationMemory α) (content : String) :
    ConversationMemory α :=
  trimIfNeeded { m with messages := m.messages ++ [⟨"user", content, none, none⟩] }

/-- The `tc_dicts` computed by `add_assistant_message`: a `None` or
empty tool-call list is stored as `None` (Python's `if tool_calls:`). -/
def assistantToolCallDicts (tool_calls : Option (List (ToolCall α))) :
    Option (List (ToolCallDict α)) :=
  match tool_calls with
  | none => none
  | some l => if l.isEmpty then none else some (l.map ToolCall.toDict)

/-- `add_assistant_message(content, tool_calls?)`. -/
def addAssistantMessage (m : ConversationMemory α) (content : String)
    (tool_calls : Option (List (ToolCall α))) : ConversationMemory α :=
  trimIfNeeded
    { m with messages :=
        m.messages ++ [⟨"assistant", content, none, assistantToolCallDicts tool_calls⟩] }

/-- `add_tool_result(tool_call_id, result)`. -/
def addToolResult (m : ConversationMemory α) (tool_call_id result : String) :
    ConversationMemory α :=
  trimIfNeeded
    { m with messages := m.messages ++ [⟨"tool_result", result, some tool_call_id, none⟩] }

/-- `get_messages()`: the current messages (the source returns a copy of
the list, so the snapshot is independent of later appends). -/
def getMessages (m : ConversationMemory α) : List (LLMMessage α) :=
  m.messages

/-- `to_dict()`. -/
def to_dict (m : ConversationMemory α) : List (MsgRecord α) :=
  m.messages.map LLMMessage.to_dict

/-- `from_dict(data)`: a fresh default-bounded memory whose messages are
rebuilt from the records, in order (no trimming is applied). -/
def from_dict (data : List (MsgRecord α)) : ConversationMemory α :=
  { max_messages := 100, messages := data.map LLMMessage.ofRecord }

end ConversationMemory

/-- One append operation on a `ConversationMemory`. -/
inductive MemOp (α : Type) where
  | user (content : String)
  | assistant (content : String) (tool_calls : Option (List (ToolCall α)))
  | toolResult (tool_call_id content : String)
deriving DecidableEq, Repr

/-- Apply one append operation. -/
def MemOp.apply (m : ConversationMemory α) : MemOp α → ConversationMemory α
  | .user c => m.addUserMessage c
  | .assistant c tcs => m.addAssistantMessage c tcs
  | .toolResult cid c => m.addToolResult cid c

/-- The single message each operation appends (before trimming). -/
def MemOp.message : MemOp α → LLMMessage α
  | .user c => ⟨"user", c, none, none⟩
  | .assistant c tcs => ⟨"assistant", c, none, ConversationMemory.assistantToolCallDicts tcs⟩
  | .toolResult cid c => ⟨"tool_result", c, some cid, none⟩

/-- Apply a sequence of append operations, oldest first. -/
def applyOps (ops : List (MemOp α)) (m : ConversationMemory α) :
    ConversationMemory α :=
  ops.foldl MemOp.apply m

/-- A memory with bound `M` and no messages. -/
def emptyMem (α : Type) (M : ℕ) : ConversationMemory α :=
  { max_messages := M, messages := [] }

/-! ## ReAct control loop (`core/agent.py`, non-streaming `process`) -/

/-- Outcome of one `llm.complete` call: a raised exception (with its
`str()` message) or a response with content and requested tool calls. -/
inductive LLMStep (α : Type) where
  | err (msg : String)
  | ok (content : String) (tool_calls : List (ToolCall α))
deriving DecidableEq, Repr

/-- `AgentResponse` dataclass (elapsed wall time is a parameter of
`ReactAgent.process` in the embedding). -/
structure AgentResponse (α : Type) where
  content : String
  tool_calls_made : List (String × Bool × ℚ)
  iterations : ℕ
  total_time_ms : ℚ
deriving DecidableEq, Repr

namespace ToolExecutor

/-- `execute_parallel`: one `execute` per call, results in input order.
The shared `_circuit_breakers` dict is threaded through the calls in
input order (a linearization of the `asyncio.gather` interleaving).
`nowF`/`tfF`/`durF`/`outF` give the clock readings and callable outcome
for the call at each index. -/
def executeParallel (ex : ToolExecutor) (brs : List (String × CircuitBreaker))
    (nowF tfF durF : ℕ → ℚ) (outF : ℕ → FuncOutcome α) :
    List (ToolCall α) → ℕ → List (ToolResult α) × List (String × CircuitBreaker)
  | [], _ => ([], brs)
  | tc :: rest, i =>
    let out := ex.execute brs (nowF i) (tfF i) (durF i) tc.id tc.name (outF i)
    let (tail, brsEnd) := ex.executeParallel out.breakers nowF tfF durF outF rest (i + 1)
    (out.result :: tail, brsEnd)

end ToolExecutor

/-- Result of the non-streaming ReAct loop body: final content, the
`tool_calls_made` log entries `(name, success, time_ms)`, the value of
the `iterations` counter, and the final memory and breaker map. -/
structure LoopOut (α : Type) where
  content : String
  made : List (String × Bool × ℚ)
  iterations : ℕ
  memory : ConversationMemory α
  breakers : List (String × CircuitBreaker)

/-- The stock message produced when the loop exhausts its iterations. -/
def maxIterationsMessage : String :=
  "I've reached my maximum number of steps for this task. "
    ++ "Here's what I was able to accomplish so far."

/-- The `for iteration in range(self.max_iterations): ... else: ...`
body of `ReactAgent.process`.  `fuel` is the number of remaining
iterations and `iterDone` the number already completed (so the
`iterations` variable reads `iterDone + 1` inside the body and keeps its
last value when the loop ends).  `llm k msgs` is the outcome of the
`k`-th `llm.complete` call; `outF k i` / `nowF k i` / `tfF k i` /
`durF k i` are the callable outcome and clock readings for the `i`-th
tool call of iteration `k`. -/
def processGo (ex : ToolExecutor) (strOf : α → String)
    (llm : ℕ → List (LLMMessage α) → LLMStep α)
    (outF : ℕ → ℕ → FuncOutcome α) (nowF tfF durF : ℕ → ℕ → ℚ) :
    ℕ → ℕ → ConversationMemory α → List (String × CircuitBreaker) →
    List (String × Bool × ℚ) → LoopOut α
  | 0, iterDone, mem, brs, made =>
    ⟨maxIterationsMessage, made, iterDone, mem, brs⟩
  | fuel + 1, iterDone, mem, brs, made =>
    let iters := iterDone + 1
    match llm iters mem.getMessages with
    | .err msg =>
      ⟨"I encountered an error while processing your request: " ++ msg,
       made, iters, mem, brs⟩
    | .ok content tcs =>
      if tcs.isEmpty then
        ⟨content, made, iters, mem.addAssistantMessage content none, brs⟩
      else
        let mem1 := mem.addAssistantMessage content (some tcs)
        let (results, brs1) :=
          ex.executeParallel brs (nowF iters) (tfF iters) (durF iters) (outF iters) tcs 0
        let made1 := made ++ results.map fun r => (r.tool_name, r.success, r.execution_time_ms)
        let mem2 := results.foldl
          (fun m r => m.addToolResult r.tool_call_id (toMessageContent strOf r)) mem1
        processGo ex strOf llm outF nowF tfF durF fuel iters mem2 brs1 made1

/-- `ReactAgent.process(user_message)` (non-streaming): append the user
message to a fresh default memory, run up to `maxIterations` loop
iterations, and package the `AgentResponse`.  Total by construction:
every path yields a response. -/
def ReactAgent.process (ex : ToolExecutor) (strOf : α → String)
    (llm : ℕ → List (LLMMessage α) → LLMStep α)
    (outF : ℕ → ℕ → FuncOutcome α) (nowF tfF durF : ℕ → ℕ → ℚ)
    (maxIterations : ℕ) (totalTime : ℚ) (userMessage : String) : AgentResponse α :=
  let mem0 := (emptyMem α 100).addUserMessage userMessage
  let out := processGo ex strOf llm outF nowF tfF durF maxIterations 0 mem0 [] []
  ⟨out.content, out.made, out.iterations, totalTime⟩

/-! ## Circuit breaker lemmas -/

namespace CircuitBreaker

theorem recordFailure_closed_lt (cb : CircuitBreaker) (t : ℚ)
    (hst : cb.st = .closed) (hlt : cb.failure_count + 1 < cb.failure_threshold) :
    cb.recordFailure t
      = { cb with failure_count := cb.failure_count + 1, last_failure := some t } := by
  have h2 : ¬ cb.failure_threshold ≤ cb.failure_count + 1 := by omega
  simp [recordFailure, hst, h2]

theorem recordFailure_closed_ge (cb : CircuitBreaker) (t : ℚ)
    (hst : cb.st = .closed) (hge : cb.failure_threshold ≤ cb.failure_count + 1) :
    cb.recordFailure t
      = { cb with st := .open, failure_count := cb.failure_count + 1,
                  last_failure := some t } := by
  simp [recordFailure, hst, hge]

theorem recordFailure_halfOpen (cb : CircuitBreaker) (t : ℚ)
    (hst : cb.st = .halfOpen) :
    cb.recordFailure t
      = { cb with st := .open, failure_count := cb.failure_count + 1,
                  last_failure := some t } := by
  simp [recordFailure, hst]

/-- Folding `record_failure` over a CLOSED breaker that stays strictly
below the threshold keeps it CLOSED, adds the number of failures to the
counter, and leaves the configuration untouched. -/
theorem foldFail_closed (ts : List ℚ) : ∀ (cb : CircuitBreaker),
    cb.st = .closed → cb.failure_count + ts.length < cb.failure_threshold →
    (ts.foldl recordFailure cb).st = .closed ∧
    (ts.foldl recordFailure cb).failure_count = cb.failure_count + ts.length ∧
    (ts.foldl recordFailure cb).failure_threshold = cb.failure_threshold ∧
    (ts.foldl recordFailure cb).recovery_timeout = cb.recovery_timeout ∧
    (ts.foldl recordFailure cb).success_threshold = cb.success_threshold := by
  induction ts with
  | nil => intro cb hst _; simp [hst]
  | cons t ts ih =>
    intro cb hst hlt
    simp only [List.length_cons] at hlt
    have hstep := recordFailure_closed_lt cb t hst (by omega)
    have h1 : (cb.recordFailure t).st = .closed := by rw [hstep]; exact hst
    have h2 : (cb.recordFailure t).failure_count = cb.failure_count + 1 := by rw [hstep]
    have h3 : (cb.recordFailure t).failure_threshold = cb.failure_threshold := by rw [hstep]
    have h4 : (cb.recordFailure t).recovery_timeout = cb.recovery_timeout := by rw [hstep]
    have h5 : (cb.recordFailure t).success_threshold = cb.success_threshold := by rw [hstep]
    obtain ⟨g1, g2, g3, g4, g5⟩ := ih (cb.recordFailure t) h1 (by rw [h2, h3]; omega)
    simp only [List.foldl_cons, List.length_cons]
    exact ⟨g1, by rw [g2, h2]; omega, by rw [g3, h3], by rw [g4, h4], by rw [g5, h5]⟩

theorem recordSuccess_halfOpen_below (cb : CircuitBreaker)
    (hst : cb.st = .halfOpen) (hlt : cb.success_count + 1 < cb.success_threshold) :
    cb.recordSuccess = { cb with success_count := cb.success_count + 1 } := by
  have h2 : ¬ cb.success_threshold ≤ cb.success_count + 1 := by omega
  simp [recordSuccess, hst, h2]

theorem recordSuccess_halfOpen_reach (cb : CircuitBreaker)
    (hst : cb.st = .halfOpen) (hge : cb.success_threshold ≤ cb.success_count + 1) :
    cb.recordSuccess
      = { cb with st := .closed, success_count := cb.success_count + 1,
                  failure_count := 0 } := by
  simp [recordSuccess, hst, hge]

/-- In HALF_OPEN, `k` consecutive successes close the breaker as soon as
the success counter reaches the threshold. -/
theorem recordSuccess_iter_closes : ∀ (k : ℕ) (cb : CircuitBreaker), 1 ≤ k →
    cb.st = .halfOpen → cb.success_count + k = cb.success_threshold →
    (recordSuccess^[k] cb).st = .closed := by
  intro k
  induction k with
  | zero => intro cb h; omega
  | succ k ih =>
    intro cb _ hst hcount
    rcases Nat.eq_zero_or_pos k with hk0 | hkpos
    · subst hk0
      have : cb.recordSuccess
          = { cb with st := .closed, success_count := cb.success_count + 1,
                      failure_count := 0 } :=
        recordSuccess_halfOpen_reach cb hst (by omega)
      simp [Function.iterate_one, this]
    · have hstep : cb.recordSuccess = { cb with success_count := cb.success_count + 1 } :=
        recordSuccess_halfOpen_below cb hst (by omega)
      rw [Function.iterate_succ_apply, hstep]
      exact ih _ hkpos (by simp [hst]) (by simp; omega)

end CircuitBreaker

/-! ## Claim theorems: circuit breaker -/

/-- C2: starting from CLOSED with a zero failure counter, a run of
`failure_threshold` consecutive `record_failure` calls (timestamps
`ts ++ [tlast]`) drives the breaker to OPEN with `last_failure = tlast`;
every `check` issued before `recovery_timeout` has elapsed since `tlast`
raises `CircuitBreakerOpen`, and the executor therefore answers a call
routed through this breaker with a failed result without invoking the
tool's callable. -/
theorem circuit_breaker_opens_after_threshold_failures
    (cb : CircuitBreaker) (hst : cb.st = .closed) (hcnt : cb.failure_count = 0)
    (ts : List ℚ) (tlast : ℚ) (hlen : ts.length + 1 = cb.failure_threshold)
    (cb' : CircuitBreaker)
    (hcb' : cb' = (ts ++ [tlast]).foldl CircuitBreaker.recordFailure cb) :
    cb'.st = .open ∧ cb'.last_failure = some tlast ∧
    (∀ now : ℚ, now - tlast < cb.recovery_timeout → (cb'.check now).2 = true) ∧
    (∀ (ex : ToolExecutor) (brs : List (String × CircuitBreaker))
       (tool : RegisteredTool) (name : String) (now tf dur : ℚ) (cid : String)
       (outcome : FuncOutcome ℕ),
       ex.registry.get name = some tool → tool.enabled = true →
       brs.lookup name = some cb' → now - tlast < cb.recovery_timeout →
       (ex.execute brs now tf dur cid name outcome).invoked = false ∧
       (ex.execute brs now tf dur cid name outcome).result.success = false) := by
  have hmid := CircuitBreaker.foldFail_closed ts cb hst (by omega)
  set cbm := ts.foldl CircuitBreaker.recordFailure cb with hcbm
  obtain ⟨hmst, hmcnt, hmth, hmrt, hmsth⟩ := hmid
  have hfin : cb'.st = .open ∧ cb'.last_failure = some tlast
      ∧ cb'.recovery_timeout = cb.recovery_timeout := by
    have hstep : cbm.recordFailure tlast
        = { cbm with st := .open, failure_count := cbm.failure_count + 1,
                     last_failure := some tlast } :=
      CircuitBreaker.recordFailure_closed_ge cbm tlast hmst (by omega)
    rw [hcb', List.foldl_append, List.foldl_cons, List.foldl_nil, ← hcbm, hstep]
    exact ⟨rfl, rfl, hmrt⟩
  obtain ⟨hops, hlast, hrt⟩ := hfin
  have hcheck : ∀ now : ℚ, now - tlast < cb.recovery_timeout → (cb'.check now).2 = true := by
    intro now hnow
    have hreset : cb'.shouldAttemptReset now = false := by
      simp [CircuitBreaker.shouldAttemptReset, hlast, hrt]
      linarith
    simp [CircuitBreaker.check, CircuitBreaker.stateRead, hops, hreset]
  refine ⟨hops, hlast, hcheck, ?_⟩
  intro ex brs tool name now tf dur cid outcome hget hen hlook hnow
  have hraised := hcheck now hnow
  obtain ⟨cb2, hcb2⟩ : ∃ cb2, cb'.check now = (cb2, true) :=
    ⟨(cb'.check now).1, by rw [← hraised]⟩
  simp [ToolExecutor.execute, hget, hen, ToolExecutor.getCircuitBreaker, hlook, hcb2]

/-- The breaker a threshold-2 configuration reaches after failures at
times 1 and 2. -/
def openedBreaker : CircuitBreaker :=
  ([(1 : ℚ)] ++ [(2 : ℚ)]).foldl CircuitBreaker.recordFailure { failure_threshold := 2 }

/-- A registry holding one enabled tool `t`. -/
def cbRegistryT : ToolRegistry := ⟨[("t", { name := "t" })]⟩

/-- C2 witness: a breaker with threshold 2, after failures at times 1
and 2, is OPEN with `last_failure = 2`; a `check` at time 10 raises, and
an executor holding this breaker for the enabled tool `t` rejects a call
to `t` without invoking it. -/
theorem circuit_breaker_opens_after_threshold_failures_witness :
    openedBreaker.st = .open ∧ openedBreaker.last_failure = some 2 ∧
    (openedBreaker.check 10).2 = true ∧
    (ToolExecutor.execute (α := ℕ) { registry := cbRegistryT } [("t", openedBreaker)]
        10 0 0 "c1" "t" (.ok none)).invoked = false ∧
    (ToolExecutor.execute (α := ℕ) { registry := cbRegistryT } [("t", openedBreaker)]
        10 0 0 "c1" "t" (.ok none)).result.success = false := by
  have H := circuit_breaker_opens_after_threshold_failures
    { failure_threshold := 2 } rfl rfl [(1 : ℚ)] 2 rfl openedBreaker rfl
  have hnow : (10 : ℚ) - 2 < (60 : ℚ) := by norm_num
  have HD := H.2.2.2 { registry := cbRegistryT } [("t", openedBreaker)]
    { name := "t" } "t" 10 0 0 "c1" (.ok none) rfl rfl rfl hnow
  exact ⟨H.1, H.2.1, H.2.2.1 10 hnow, HD.1, HD.2⟩

/-- C3: once a breaker is OPEN and strictly more than `recovery_timeout`
seconds have passed since the last recorded failure, the next state read
observes HALF_OPEN with the success counter reset to 0; from that state,
`success_threshold` consecutive `record_success` calls close the
breaker, while a single `record_failure` reopens it. -/
theorem circuit_breaker_half_open_recovery
    (cb : CircuitBreaker) (t now : ℚ)
    (hst : cb.st = .open) (hlf : cb.last_failure = some t)
    (helapsed : cb.recovery_timeout < now - t)
    (hsth : 1 ≤ cb.success_threshold) :
    (cb.stateRead now).2 = .halfOpen ∧
    (cb.stateRead now).1.success_count = 0 ∧
    (CircuitBreaker.recordSuccess^[cb.success_threshold] (cb.stateRead now).1).st
      = .closed ∧
    (∀ t' : ℚ, ((cb.stateRead now).1.recordFailure t').st = .open) := by
  have hreset : cb.shouldAttemptReset now = true := by
    simp [CircuitBreaker.shouldAttemptReset, hlf]
    linarith
  have hread : cb.stateRead now
      = ({ cb with st := .halfOpen, success_count := 0 }, .halfOpen) := by
    simp [CircuitBreaker.stateRead, hst, hreset]
  rw [hread]
  refine ⟨rfl, rfl, ?_, ?_⟩
  · exact CircuitBreaker.recordSuccess_iter_closes cb.success_threshold _
      hsth rfl (by simp)
  · intro t'
    rw [CircuitBreaker.recordFailure_halfOpen _ t' rfl]

/-- C3 witness: a breaker with defaults (recovery 60 s, success
threshold 2) that opened at time 0, read at time 100, is observed
HALF_OPEN with a zeroed success counter; two successes close it and one
failure reopens it. -/
theorem circuit_breaker_half_open_recovery_witness :
    (CircuitBreaker.stateRead { st := .open, last_failure := some 0 } 100).2
        = .halfOpen ∧
    (CircuitBreaker.stateRead { st := .open, last_failure := some 0 } 100).1.success_count
        = 0 ∧
    (CircuitBreaker.recordSuccess^[(2 : ℕ)]
        (CircuitBreaker.stateRead { st := .open, last_failure := some 0 } 100).1).st
      = .closed ∧
    ((CircuitBreaker.stateRead { st := .open, last_failure := some 0 } 100).1.recordFailure
        5).st = .open := by
  have H := circuit_breaker_half_open_recovery
    { st := .open, last_failure := some 0 } 0 100 rfl rfl (by norm_num) (by norm_num)
  exact ⟨H.1, H.2.1, H.2.2.1, H.2.2.2 5⟩

/-! ## Claim theorems: retry policy -/

/-- C4 counterexample: at `min_wait = 1/2` (the repository's own
`external_service_retry` configuration) and attempt 1, the code waits
`clamp(1 * 2^0) = 1` second while the spec's formula
`clamp(min_wait * 2^0)` gives `1/2`: `wait_exponential` multiplies by
the fixed `multiplier=1`, not by `min_wait`. -/
theorem with_retry_wait_formula_counterexample :
    withRetryWait (1/2) 30 1 = 1 ∧ specClaimedWait (1/2) 30 1 = 1/2 ∧
    ¬ withRetryWait (1/2) 30 1 = specClaimedWait (1/2) 30 1 := by
  norm_num [withRetryWait, waitExponential, specClaimedWait]

/-- C4 amended: for nonnegative `min_wait`, the wait before the next try
after attempt `attempt` equals `min(max_wait, 2^(attempt-1))` clamped to
`[min_wait, max_wait]` — the exponential's coefficient is the fixed
`multiplier = 1`, not `min_wait`. -/
theorem with_retry_wait_formula (min_wait max_wait : ℚ) (attempt : ℕ)
    (h : 0 ≤ min_wait) :
    withRetryWait min_wait max_wait attempt
      = max min_wait (min (2 ^ (attempt - 1)) max_wait) := by
  simp [withRetryWait, waitExponential, max_eq_right h]

/-- C4 amended witness: with `min_wait = 1/2`, `max_wait = 30`, the wait
after attempt 3 is `max (1/2) (min 4 30) = 4`. -/
theorem with_retry_wait_formula_witness :
    withRetryWait (1/2) 30 3 = max (1/2 : ℚ) (min (2 ^ (3 - 1)) 30) :=
  with_retry_wait_formula (1/2) 30 3 (by norm_num)

/-- C5 counterexample: with two retryable failures and
`max_attempts = 2`, exhaustion re-raises the original exception
(`reraise=True`), not a wrapping `RetryError`; the claim that the last
failure propagates wrapped is false. -/
theorem with_retry_exhaustion_counterexample :
    (withRetryRun (fun _ : ℕ => true) (fun _ => Except.error 7) 2 : RetryOutcome ℕ ℕ)
        = .raised 7 ∧
    (RetryOutcome.raised 7 : RetryOutcome ℕ ℕ) ≠ .retryError 7 := by
  constructor
  · rw [withRetryRun, retryGo]
    norm_num
    rw [retryGo]
    norm_num
  · simp

/-- When every attempt fails with a retryable exception, the loop runs
`n - attempt + 1` further attempts and re-raises the `n`-th exception
(`reraise=True`). -/
theorem retryGo_all_retryable_fail {ε α : Type} (retryable : ε → Bool) (es : ℕ → ε)
    (hr : ∀ k, retryable (es k) = true) (n : ℕ) :
    ∀ d attempt, 1 ≤ attempt → attempt ≤ n → n - attempt = d →
      retryGo (α := α) retryable true (fun k => Except.error (es k)) n attempt
        = .raised (es n) := by
  intro d
  induction d with
  | zero =>
    intro attempt _ hle hd
    have : attempt = n := by omega
    subst this
    rw [retryGo]
    simp [hr]
  | succ d ih =>
    intro attempt h1 hle hd
    rw [retryGo]
    have hlt : ¬ n ≤ attempt := by omega
    simp [hr, hlt]
    exact ih (attempt + 1) (by omega) (by omega) (by omega)

/-- C5 amended: a failure the retry predicate rejects propagates
unchanged on its first occurrence; and when all `max_attempts` tries
fail with retryable failures, the **last failure itself** propagates
unchanged (`reraise=True`) — it is not wrapped, so the exception alone
does not distinguish exhaustion from a never-retryable failure. -/
theorem with_retry_failure_propagation {ε α : Type} (retryable : ε → Bool)
    (n : ℕ) (hn : 1 ≤ n) :
    (∀ (f : ℕ → Except ε α) (e : ε), f 1 = Except.error e → retryable e = false →
      withRetryRun retryable f n = .raised e) ∧
    (∀ es : ℕ → ε, (∀ k, retryable (es k) = true) →
      withRetryRun (α := α) retryable (fun k => Except.error (es k)) n
        = .raised (es n)) := by
  constructor
  · intro f e hf hnr
    rw [withRetryRun, retryGo, hf]
    simp [hnr]
  · intro es hr
    exact retryGo_all_retryable_fail retryable es hr n (n - 1) 1 le_rfl hn rfl

/-- C5 amended witness: with retry predicate "is zero", a non-retryable
first failure `7` propagates as itself, and exhausting 2 attempts on the
retryable failure `0` also propagates `0` itself. -/
theorem with_retry_failure_propagation_witness :
    (withRetryRun (fun e : ℕ => decide (e = 0)) (fun _ => Except.error 7) 2
        : RetryOutcome ℕ ℕ) = .raised 7 ∧
    (withRetryRun (fun e : ℕ => decide (e = 0)) (fun _ => Except.error 0) 2
        : RetryOutcome ℕ ℕ) = .raised 0 := by
  have H := with_retry_failure_propagation (α := ℕ)
    (fun e : ℕ => decide (e = 0)) 2 (by norm_num)
  exact ⟨H.1 (fun _ => Except.error 7) 7 rfl (by decide),
         H.2 (fun _ => 0) (fun _ => rfl)⟩

/-! ## String containment lemmas -/

theorem containsStr_append_left (p s sub : String) (h : containsStr s sub) :
    containsStr (p ++ s) sub := by
  obtain ⟨a, b, rfl⟩ := h
  exact ⟨p ++ a, b, by simp [String.append_assoc]⟩

theorem joinComma_mem_contains : ∀ (l : List String) (t : String), t ∈ l →
    containsStr (joinComma l) t := by
  intro l
  induction l with
  | nil => intro t ht; cases ht
  | cons x xs ih =>
    intro t ht
    rcases List.mem_cons.mp ht with rfl | hmem
    · cases xs with
      | nil => exact ⟨"", "", by simp [joinComma]⟩
      | cons y ys =>
        exact ⟨"", ", " ++ joinComma (y :: ys), by simp [joinComma, String.append_assoc]⟩
    · cases xs with
      | nil => cases hmem
      | cons y ys =>
        obtain ⟨a, b, hab⟩ := ih t hmem
        refine ⟨x ++ ", " ++ a, b, ?_⟩
        simp only [joinComma, hab]
        simp [String.append_assoc]

/-! ## Claim theorems: tool executor -/

/-- C1: `execute` is a total function into `ExecOut` (every control path
of the source, including a raised timeout or exception from the
callable, yields a `ToolResult`); for a tool name absent from the
registry the result has `success = false` and an error message that
contains the unknown name and the name of every tool the registry
lists. -/
theorem execute_unknown_tool {α : Type} (ex : ToolExecutor)
    (brs : List (String × CircuitBreaker)) (now tf dur : ℚ)
    (cid name : String) (outcome : FuncOutcome α)
    (h : ex.registry.get name = none) :
    (ex.execute brs now tf dur cid name outcome).result.success = false ∧
    ∃ e, (ex.execute brs now tf dur cid name outcome).result.error = some e ∧
      containsStr e name ∧
      ∀ t ∈ ex.registry.listNames, containsStr e t := by
  have hout : ex.execute brs now tf dur cid name outcome
      = ⟨⟨cid, name, false, none,
          some ("Unknown tool: '" ++ name ++ "'. Available tools: "
            ++ joinComma ex.registry.listNames), 0⟩, brs, false⟩ := by
    simp [ToolExecutor.execute, h]
  rw [hout]
  refine ⟨rfl, _, rfl, ?_, ?_⟩
  · exact ⟨"Unknown tool: '", "'. Available tools: " ++ joinComma ex.registry.listNames,
      by simp [String.append_assoc]⟩
  · intro t ht
    exact containsStr_append_left _ _ _ (joinComma_mem_contains _ t ht)

/-- A concrete registry: an enabled tool `calc` and a disabled tool
`sum`. -/
def sampleRegistry : ToolRegistry :=
  ⟨[("calc", { name := "calc" }), ("sum", { name := "sum", enabled := false })]⟩

/-- C1 witness: executing the unregistered name `foo` against
`sampleRegistry` yields a failed result whose error message contains
`foo` and each listed tool name. -/
theorem execute_unknown_tool_witness :
    (ToolExecutor.execute (α := ℕ) { registry := sampleRegistry } [] 0 0 0
        "id1" "foo" (.ok none)).result.success = false ∧
    ∃ e, (ToolExecutor.execute (α := ℕ) { registry := sampleRegistry } [] 0 0 0
        "id1" "foo" (.ok none)).result.error = some e ∧
      containsStr e "foo" ∧
      ∀ t ∈ sampleRegistry.listNames, containsStr e t :=
  execute_unknown_tool { registry := sampleRegistry } [] 0 0 0 "id1" "foo"
    (.ok none) rfl

/-- C10: a call whose tool name is unregistered or maps to a disabled
tool returns a failed result while leaving the circuit-breaker map
exactly as it was (no breaker is created or mutated) and without
invoking any callable. -/
theorem execute_unknown_or_disabled_frame {α : Type} (ex : ToolExecutor)
    (brs : List (String × CircuitBreaker)) (now tf dur : ℚ)
    (cid name : String) (outcome : FuncOutcome α)
    (h : ex.registry.get name = none ∨
      ∃ tool, ex.registry.get name = some tool ∧ tool.enabled = false) :
    (ex.execute brs now tf dur cid name outcome).result.success = false ∧
    (ex.execute brs now tf dur cid name outcome).breakers = brs ∧
    (ex.execute brs now tf dur cid name outcome).invoked = false := by
  rcases h with h | ⟨tool, hget, hdis⟩
  · simp [ToolExecutor.execute, h]
  · simp [ToolExecutor.execute, hget, hdis]

/-- C10 witness: calling the disabled tool `sum` of `sampleRegistry`
with a one-breaker map returns a failed result and leaves that map and
every breaker untouched. -/
theorem execute_unknown_or_disabled_frame_witness :
    (ToolExecutor.execute (α := ℕ) { registry := sampleRegistry }
        [("calc", {})] 0 0 0 "id2" "sum" (.ok none)).result.success = false ∧
    (ToolExecutor.execute (α := ℕ) { registry := sampleRegistry }
        [("calc", {})] 0 0 0 "id2" "sum" (.ok none)).breakers = [("calc", {})] ∧
    (ToolExecutor.execute (α := ℕ) { registry := sampleRegistry }
        [("calc", {})] 0 0 0 "id2" "sum" (.ok none)).invoked = false :=
  execute_unknown_or_disabled_frame { registry := sampleRegistry }
    [("calc", {})] 0 0 0 "id2" "sum" (.ok none)
    (Or.inr ⟨{ name := "sum", enabled := false }, rfl, rfl⟩)

/-! ## Memory lemmas -/

/-- The last `n` elements of a list. -/
def lastN (n : ℕ) (l : List α) : List α :=
  l.drop (l.length - n)

theorem lastN_of_le {n : ℕ} {l : List α} (h : l.length ≤ n) : lastN n l = l := by
  simp [lastN, Nat.sub_eq_zero_of_le h]

theorem lastN_length (n : ℕ) (l : List α) : (lastN n l).length = min n l.length := by
  simp [lastN]
  omega

/-- The last `n` of a concatenation depend only on the last `n` of the
left part. -/
theorem lastN_append_lastN (n : ℕ) (l r : List α) :
    lastN n (lastN n l ++ r) = lastN n (l ++ r) := by
  by_cases h : l.length ≤ n
  · rw [lastN_of_le h]
  · have hx : (lastN n l).length = n := by
      rw [lastN_length]; omega
    set x := lastN n l with hxdef
    have lhs : lastN n (x ++ r) = (x ++ r).drop r.length := by
      rw [lastN, List.length_append, hx]
      congr 1
      omega
    have rhs : lastN n (l ++ r) = (x ++ r).drop r.length := by
      rw [lastN, List.length_append]
      have h1 : l.length + r.length - n = (l.length - n) + r.length := by omega
      rw [h1, ← List.drop_drop,
        List.drop_append_of_le_length (by omega : l.length - n ≤ l.length)]
      rw [hxdef, lastN]
    rw [lhs, rhs]

theorem trimIfNeeded_messages (m : ConversationMemory α) :
    m.trimIfNeeded.messages = lastN m.max_messages m.messages := by
  by_cases h : m.max_messages < m.messages.length
  · simp [ConversationMemory.trimIfNeeded, h, lastN]
  · simp [ConversationMemory.trimIfNeeded, h, lastN,
      Nat.sub_eq_zero_of_le (le_of_not_lt h)]

theorem trimIfNeeded_max (m : ConversationMemory α) :
    m.trimIfNeeded.max_messages = m.max_messages := by
  by_cases h : m.max_messages < m.messages.length <;>
    simp [ConversationMemory.trimIfNeeded, h]

/-- Each append operation appends its message and then trims to the last
`max_messages` entries. -/
theorem memOp_apply_messages (m : ConversationMemory α) (op : MemOp α) :
    (MemOp.apply m op).messages
        = lastN m.max_messages (m.messages ++ [op.message]) ∧
    (MemOp.apply m op).max_messages = m.max_messages := by
  cases op with
  | user c => exact ⟨trimIfNeeded_messages _, trimIfNeeded_max _⟩
  | assistant c tcs => exact ⟨trimIfNeeded_messages _, trimIfNeeded_max _⟩
  | toolResult cid c => exact ⟨trimIfNeeded_messages _, trimIfNeeded_max _⟩

/-- After any sequence of appends, the memory holds exactly the last
`max_messages` of the messages ever appended (starting from a memory
within its bound). -/
theorem applyOps_messages (ops : List (MemOp α)) : ∀ (m : ConversationMemory α),
    m.messages.length ≤ m.max_messages →
    (applyOps ops m).messages
        = lastN m.max_messages (m.messages ++ ops.map MemOp.message) ∧
    (applyOps ops m).max_messages = m.max_messages := by
  induction ops with
  | nil =>
    intro m hlen
    simpa [applyOps] using lastN_of_le hlen |>.symm
  | cons op ops ih =>
    intro m hlen
    obtain ⟨h1, h2⟩ := memOp_apply_messages m op
    have hlen' : (MemOp.apply m op).messages.length ≤ (MemOp.apply m op).max_messages := by
      rw [h1, h2, lastN_length]
      omega
    obtain ⟨g1, g2⟩ := ih (MemOp.apply m op) hlen'
    rw [h1] at g1
    rw [h2] at g1 g2
    constructor
    · show (applyOps ops (MemOp.apply m op)).messages = _
      rw [g1, lastN_append_lastN]
      simp [List.append_assoc]
    · exact g2

/-! ## Claim theorems: conversation memory -/

/-- C6: starting from an empty memory with bound `M ≥ 1`, after `M + K`
appends `get_messages()` holds exactly `M` entries: the most recent `M`
appended messages in their original append order (equivalently, the full
append sequence with its first `K` entries dropped).  The source's
`get_messages` returns `self.messages.copy()`, so the returned snapshot
is additionally unaffected by later appends. -/
theorem memory_trims_to_most_recent {α : Type} (M K : ℕ) (hM : 1 ≤ M)
    (ops : List (MemOp α)) (hlen : ops.length = M + K) :
    (applyOps ops (emptyMem α M)).getMessages = (ops.map MemOp.message).drop K ∧
    (applyOps ops (emptyMem α M)).getMessages.length = M := by
  obtain ⟨h1, _⟩ := applyOps_messages ops (emptyMem α M) (by simp [emptyMem])
  have hmap : (ops.map MemOp.message).length = M + K := by
    rw [List.length_map, hlen]
  have h2 : (applyOps ops (emptyMem α M)).getMessages = (ops.map MemOp.message).drop K := by
    rw [ConversationMemory.getMessages, h1]
    simp only [emptyMem, lastN, List.nil_append, hmap]
    congr 1
    omega
  refine ⟨h2, ?_⟩
  rw [h2, List.length_drop, hmap]
  omega

/-- C6 witness: bound 2, three appends — memory holds the last two in
order. -/
theorem memory_trims_to_most_recent_witness :
    (applyOps [MemOp.user "a", MemOp.user "b", MemOp.user "c"]
        (emptyMem ℕ 2)).getMessages
      = ([MemOp.user "a", MemOp.user "b", MemOp.user "c"].map MemOp.message).drop 1 ∧
    (applyOps [MemOp.user "a", MemOp.user "b", MemOp.user "c"]
        (emptyMem ℕ 2)).getMessages.length = 2 :=
  memory_trims_to_most_recent 2 1 (by norm_num)
    [MemOp.user "a", MemOp.user "b", MemOp.user "c"] rfl

/-- C7: serializing a memory with `to_dict` and rebuilding with
`from_dict` restores the identical ordered message sequence (roles,
contents, `tool_call_id`s and `tool_calls` all preserved). -/
theorem memory_serialization_roundtrip {α : Type} (m : ConversationMemory α) :
    (ConversationMemory.from_dict m.to_dict).messages = m.messages := by
  simp only [ConversationMemory.from_dict, ConversationMemory.to_dict, List.map_map]
  have h : (LLMMessage.ofRecord ∘ LLMMessage.to_dict : LLMMessage α → LLMMessage α)
      = id := by
    funext x
    cases x
    rfl
  rw [h, List.map_id]

/-- An assistant message in `msgs` carries a tool call with id `cid`. -/
def hasMatchingAssistant (msgs : List (LLMMessage α)) (cid : String) : Bool :=
  msgs.any fun a =>
    a.role == "assistant" &&
      (match a.tool_calls with
       | some tcs => tcs.any fun tc => tc.id == cid
       | none => false)

/-- Every `tool_result` message in `msgs` has a matching assistant
tool-call message in `msgs` (the property C8 asserts trimming
preserves). -/
def noDanglingToolResult (msgs : List (LLMMessage α)) : Bool :=
  msgs.all fun msg =>
    if msg.role == "tool_result" then
      match msg.tool_call_id with
      | some cid => hasMatchingAssistant msgs cid
      | none => true
    else true

/-- The two-append run that splits a tool-call/tool-result pair when
`max_messages = 1`. -/
def splitPairOps : List (MemOp ℕ) :=
  [MemOp.assistant "calling" (some [⟨"a", "t", 0⟩]), MemOp.toolResult "a" "res"]

/-- C8 counterexample: with `max_messages = 1`, appending an assistant
tool-call message and then its tool result trims the assistant message
away and leaves a dangling `tool_result` whose `tool_call_id` has no
matching assistant message — trimming does split the pair. -/
theorem memory_trim_splits_pair_counterexample :
    noDanglingToolResult (applyOps splitPairOps (emptyMem ℕ 1)).getMessages = false := by
  rfl

/-- C8 amended: trimming removes the oldest entries first — the retained
messages are always a suffix of the full append sequence — but it does
not keep tool-call/tool-result pairs together: a trim can leave a
`tool_result` whose matching assistant message was dropped (the run in
`splitPairOps`). -/
theorem memory_trim_removes_oldest_first {α : Type} (M : ℕ) (ops : List (MemOp α)) :
    (applyOps ops (emptyMem α M)).getMessages <:+ ops.map MemOp.message := by
  obtain ⟨h1, _⟩ := applyOps_messages ops (emptyMem α M) (by simp [emptyMem])
  rw [ConversationMemory.getMessages, h1]
  simp only [emptyMem, lastN, List.nil_append]
  exact List.drop_suffix _ _

/-! ## Claim theorems: ReAct control loop -/

/-- When every model response carries tool calls, the loop body consumes
all its fuel and ends in the stock max-iterations message, with the
`iterations` counter equal to completed-so-far plus the fuel. -/
theorem processGo_all_tool_calls {α : Type} (ex : ToolExecutor) (strOf : α → String)
    (llm : ℕ → List (LLMMessage α) → LLMStep α)
    (cf : ℕ → List (LLMMessage α) → String)
    (tcf : ℕ → List (LLMMessage α) → List (ToolCall α))
    (hllm : ∀ k msgs, llm k msgs = .ok (cf k msgs) (tcf k msgs))
    (hne : ∀ k msgs, tcf k msgs ≠ [])
    (outF : ℕ → ℕ → FuncOutcome α) (nowF tfF durF : ℕ → ℕ → ℚ) :
    ∀ (fuel iterDone : ℕ) (mem : ConversationMemory α)
      (brs : List (String × CircuitBreaker)) (made : List (String × Bool × ℚ)),
      (processGo ex strOf llm outF nowF tfF durF fuel iterDone mem brs made).content
          = maxIterationsMessage ∧
      (processGo ex strOf llm outF nowF tfF durF fuel iterDone mem brs made).iterations
          = iterDone + fuel := by
  intro fuel
  induction fuel with
  | zero => intro iterDone mem brs made; exact ⟨rfl, rfl⟩
  | succ fuel ih =>
    intro iterDone mem brs made
    have hempty : (tcf (iterDone + 1) mem.getMessages).isEmpty = false := by
      rcases hcase : tcf (iterDone + 1) mem.getMessages with _ | ⟨a, l⟩
      · exact absurd hcase (hne _ _)
      · rfl
    rw [processGo, hllm]
    obtain ⟨results, brs1, hEP⟩ :
        ∃ r b, ex.executeParallel brs (nowF (iterDone + 1)) (tfF (iterDone + 1))
          (durF (iterDone + 1)) (outF (iterDone + 1))
          (tcf (iterDone + 1) mem.getMessages) 0 = (r, b) := ⟨_, _, rfl⟩
    simp only [hEP, hempty, Bool.false_eq_true, if_false]
    exact ⟨(ih _ _ _ _).1, by rw [(ih _ _ _ _).2]; omega⟩

/-- C9: in a run of the non-streaming `process` where every model
response requests at least one tool (so `Final` is never reached), the
loop terminates after exactly `max_iterations` iterations and returns an
`AgentResponse` whose content is the stock "ran out of steps" message —
no exception is raised (`process` is a total function into
`AgentResponse`). -/
theorem process_max_iterations_stock_message {α : Type} (ex : ToolExecutor)
    (strOf : α → String) (llm : ℕ → List (LLMMessage α) → LLMStep α)
    (cf : ℕ → List (LLMMessage α) → String)
    (tcf : ℕ → List (LLMMessage α) → List (ToolCall α))
    (hllm : ∀ k msgs, llm k msgs = .ok (cf k msgs) (tcf k msgs))
    (hne : ∀ k msgs, tcf k msgs ≠ [])
    (outF : ℕ → ℕ → FuncOutcome α) (nowF tfF durF : ℕ → ℕ → ℚ)
    (maxIterations : ℕ) (totalTime : ℚ) (userMessage : String) :
    (ReactAgent.process ex strOf llm outF nowF tfF durF maxIterations totalTime
        userMessage).content = maxIterationsMessage ∧
    (ReactAgent.process ex strOf llm outF nowF tfF durF maxIterations totalTime
        userMessage).iterations = maxIterations := by
  obtain ⟨g1, g2⟩ := processGo_all_tool_calls ex strOf llm cf tcf hllm hne
    outF nowF tfF durF maxIterations 0
    ((emptyMem α 100).addUserMessage userMessage) [] []
  exact ⟨g1, by rw [ReactAgent.process]; simpa using g2⟩

/-- C9 witness: a model that always requests the tool `calc`, with
`max_iterations = 2`, ends with the stock message after exactly 2
iterations. -/
theorem process_max_iterations_stock_message_witness :
    (ReactAgent.process (α := ℕ) { registry := sampleRegistry } (fun _ => "")
        (fun _ _ => .ok "thinking" [⟨"i1", "calc", 0⟩])
        (fun _ _ => .ok none) (fun _ _ => 0) (fun _ _ => 0) (fun _ _ => 0)
        2 0 "hi").content = maxIterationsMessage ∧
    (ReactAgent.process (α := ℕ) { registry := sampleRegistry } (fun _ => "")
        (fun _ _ => .ok "thinking" [⟨"i1", "calc", 0⟩])
        (fun _ _ => .ok none) (fun _ _ => 0) (fun _ _ => 0) (fun _ _ => 0)
        2 0 "hi").iterations = 2 :=
  process_max_iterations_stock_message { registry := sampleRegistry } (fun _ => "")
    (fun _ _ => .ok "thinking" [⟨"i1", "calc", 0⟩])
    (fun _ _ => "thinking") (fun _ _ => [⟨"i1", "calc", 0⟩])
    (fun _ _ => rfl) (fun _ _ => List.cons_ne_nil _ _)
    (fun _ _ => .ok none) (fun _ _ => 0) (fun _ _ => 0) (fun _ _ => 0)
    2 0 "hi"
